import Mathlib

/-!
Verification of the Patient Record Deduplication & Matching Engine
(`backend/src/utils/duplicateChecker.ts` and the `/api/extract/match`
route handler), shallowly embedded in Lean 4.

Strings are modelled as `List Char`, JavaScript numbers as `Nat`/`ℚ`,
optional (possibly `undefined`) values as `Option`, and JavaScript
truthiness of strings and numbers explicitly (empty string and `0` are
falsy).  The Mongo record store is modelled as a list of stored patient
documents, a `find` call as a filter by the predicate denoted by the
query object, and the `$text` search operator as an abstract predicate
parameter.
-/

namespace PatientDedup

/-- Strings are lists of characters. -/
abbrev Str := List Char

/-- JavaScript truthiness of an optional string: `undefined` and the
empty string are falsy. -/
def truthyS (v : Option Str) : Bool :=
  match v with
  | none => false
  | some s => !s.isEmpty

/-- JavaScript truthiness of an optional number: `undefined` and `0`
are falsy. -/
def truthyN (v : Option Nat) : Bool :=
  match v with
  | none => false
  | some n => n != 0

/-- The four supported jurisdictions (`types/index.ts`). -/
inductive Country
  | UK
  | US
  | India
  | Japan
deriving DecidableEq

/-- The country-specific identifier sub-document
(`IPatient.countryData` in `types/index.ts`): a union of optional
named string fields. -/
structure CountryData where
  nhsNumber : Option Str := none
  address : Option Str := none
  gpName : Option Str := none
  nhsInsuranceNumber : Option Str := none
  mrn : Option Str := none
  ssn : Option Str := none
  healthInsurancePolicyNumber : Option Str := none
  primaryInsuranceProvider : Option Str := none
  hospitalUidAadhaar : Option Str := none
  insuranceMemberID : Option Str := none
  insuranceCompanyName : Option Str := none
  hospitalPatientID : Option Str := none
  nationalHealthInsuranceCardNumber : Option Str := none
  prefectureCode : Option Str := none
deriving DecidableEq

/-- A stored patient document (`PatientDocument`): the schema makes
`name`, `age` and `country` required and `countryData` is a subdocument;
`id` models the Mongo `_id`. -/
structure PatientDoc where
  id : Nat
  name : Str
  age : Nat
  country : Country
  countryData : CountryData
deriving DecidableEq

/-- A partial input record (`Partial<IPatient>`): every field may be
`undefined`. -/
structure PartialPatient where
  name : Option Str := none
  age : Option Nat := none
  country : Option Country := none
  countryData : Option CountryData := none
deriving DecidableEq

/-! ### Name normalization (`calculateNameSimilarity`, lines 121-124)

`str.toLowerCase().trim().replace(/\s+/g, ' ')`: lowercase every
character, strip leading and trailing whitespace, then collapse each
internal run of whitespace to a single space. -/

/-- One-pass run collapsing: the flag records whether the previous
character was whitespace (in which case further whitespace is
dropped). -/
def collapseWSAux : Bool → Str → Str
  | _, [] => []
  | inWS, c :: cs =>
      if c.isWhitespace then
        if inWS then collapseWSAux true cs else ' ' :: collapseWSAux true cs
      else c :: collapseWSAux false cs

/-- Collapse every maximal run of whitespace characters to a single
space (the `replace` step applied after `trim`). -/
def collapseWS (s : Str) : Str :=
  collapseWSAux false s

/-- Strip leading and trailing whitespace (the `trim` step). -/
def trimStr (s : Str) : Str :=
  ((s.dropWhile Char.isWhitespace).reverse.dropWhile Char.isWhitespace).reverse

/-- The normalization applied to both names before comparison. -/
def normalize (s : Str) : Str :=
  collapseWS (trimStr (s.map Char.toLower))

/-! ### The dynamic-programming matrix (lines 129-143)

`matrix[j][i]` depends only on the indices, so the filled matrix is
embedded as a function of `(j, i)`; entry `(j+1, i+1)` reads
`n1[i]` and `n2[j]` exactly as the source reads `n1[i-1]`/`n2[j-1]`
at matrix position `(j, i)` for `1 ≤ i, 1 ≤ j`. -/

/-- Row `j + 1` of the DP matrix, built from row `j` (`prev`): entry
`0` is `j + 1`, and entry `i + 1` combines the entry to its left, the
two entries of the previous row, and the indicator comparing `n1[i]`
with `n2[j]` (passed in as `cj`). -/
def levMatrixRowStep (n1 : Str) (cj : Char) (prev : Nat → Nat) (j : Nat) : Nat → Nat
  | 0 => j + 1
  | i + 1 =>
      min (min (levMatrixRowStep n1 cj prev j i + 1) (prev (i + 1) + 1))
        (prev i + if n1.getD i 'a' = cj then 0 else 1)

/-- Row `j` of the DP matrix as a function of the column index. -/
def levMatrixRow (n1 n2 : Str) : Nat → (Nat → Nat)
  | 0 => fun i => i
  | j + 1 => levMatrixRowStep n1 (n2.getD j 'a') (levMatrixRow n1 n2 j) j

/-- The DP matrix of `calculateNameSimilarity`: `levMatrix n1 n2 j i`
is the value the source stores in `matrix[j][i]`. -/
def levMatrix (n1 n2 : Str) (j i : Nat) : Nat :=
  levMatrixRow n1 n2 j i

theorem levMatrix_zero_row (n1 n2 : Str) (i : Nat) : levMatrix n1 n2 0 i = i := rfl

theorem levMatrix_zero_col (n1 n2 : Str) (j : Nat) :
    levMatrix n1 n2 (j + 1) 0 = j + 1 := rfl

/-- The recurrence the source fills `matrix[j][i]` with, for `1 ≤ i`,
`1 ≤ j` (reading `n1[i-1]`, `n2[j-1]` at position `(j, i)`). -/
theorem levMatrix_succ_succ (n1 n2 : Str) (j i : Nat) :
    levMatrix n1 n2 (j + 1) (i + 1) =
      min (min (levMatrix n1 n2 (j + 1) i + 1) (levMatrix n1 n2 j (i + 1) + 1))
        (levMatrix n1 n2 j i + if n1.getD i 'a' = n2.getD j 'a' then 0 else 1) := rfl

/-- `calculateNameSimilarity` (lines 121-147): normalize both names,
return `1` on equality, otherwise `(maxLength - d) / maxLength` where
`d` is the bottom-right DP matrix entry. -/
def calculateNameSimilarity (name1 name2 : Str) : ℚ :=
  let n1 := normalize name1
  let n2 := normalize name2
  if n1 = n2 then 1
  else
    let maxLength := max n1.length n2.length
    if maxLength = 0 then 1
    else ((maxLength : ℚ) - (levMatrix n1 n2 n2.length n1.length : ℚ)) / (maxLength : ℚ)

/-! ### The mathematical Levenshtein distance

The textbook recursive definition: minimum number of single-character
insertions, deletions and substitutions, all at unit cost. -/

/-- Distance from `x :: xs` once the distance function `f` from `xs`
is known: `levCons x f ys` is the distance between `x :: xs` and `ys`
when `f` computes the distance from `xs`. -/
def levCons (x : Char) (f : Str → Nat) : Str → Nat
  | [] => f [] + 1
  | y :: ys =>
      min (min (levCons x f ys + 1) (f (y :: ys) + 1))
        (f ys + if x = y then 0 else 1)

/-- Unit-cost Levenshtein edit distance (minimum number of
single-character insertions, deletions and substitutions), presented
in curried form so that both recursions are structural; the three
defining recurrences are the equations `levenshtein_nil_left`,
`levenshtein_nil_right` and `levenshtein_cons_cons` below. -/
def levenshtein : Str → Str → Nat
  | [] => fun ys => ys.length
  | x :: xs => levCons x (levenshtein xs)

theorem levenshtein_nil_left (ys : Str) : levenshtein [] ys = ys.length := rfl

theorem levenshtein_nil_right : ∀ xs : Str, levenshtein xs [] = xs.length
  | [] => rfl
  | x :: xs => by
      show levCons x (levenshtein xs) [] = (x :: xs).length
      simp [levCons, levenshtein_nil_right xs]

theorem levenshtein_cons_cons (x y : Char) (xs ys : Str) :
    levenshtein (x :: xs) (y :: ys) =
      min (min (levenshtein (x :: xs) ys + 1) (levenshtein xs (y :: ys) + 1))
        (levenshtein xs ys + if x = y then 0 else 1) := rfl

set_option maxHeartbeats 2000000 in
/-- Arithmetic core of the snoc recurrence: both nestings of minima
range over the same nine quantities. -/
theorem min9_shuffle (A1 A2 A3 A4 A5 A6 A7 A8 A9 p q : Nat) :
    min (min (min (min (A1 + 1) (A2 + 1)) (A3 + q) + 1)
        (min (min (A4 + 1) (A5 + 1)) (A6 + q) + 1))
      (min (min (A7 + 1) (A8 + 1)) (A9 + q) + p)
    = min (min (min (min (A1 + 1) (A4 + 1)) (A7 + p) + 1)
        (min (min (A2 + 1) (A5 + 1)) (A8 + p) + 1))
      (min (min (A3 + 1) (A6 + 1)) (A9 + p) + q) := by
  simp only [← min_add_add_right]
  refine le_antisymm ?_ ?_ <;> (repeat' apply le_min) <;> omega

set_option maxHeartbeats 800000 in
/-- The edit distance also satisfies the recurrence on the last
characters of its arguments (fuel-indexed induction on the combined
length). -/
theorem levenshtein_snoc_aux (a b : Char) :
    ∀ (n : Nat) (xs ys : Str), xs.length + ys.length ≤ n →
      levenshtein (xs ++ [a]) (ys ++ [b]) =
        min (min (levenshtein (xs ++ [a]) ys + 1) (levenshtein xs (ys ++ [b]) + 1))
          (levenshtein xs ys + if a = b then 0 else 1) := by
  intro n
  induction n with
  | zero =>
      intro xs ys h
      have hx : xs = [] := by
        cases xs with
        | nil => rfl
        | cons z zs => simp at h
      have hy : ys = [] := by
        cases ys with
        | nil => rfl
        | cons z zs => simp [hx] at h
      subst hx; subst hy
      rfl
  | succ n ih =>
      intro xs ys h
      match xs, ys with
      | [], [] => rfl
      | [], y :: ys' =>
          have e1 := ih [] ys' (by simp at h ⊢; omega)
          simp only [List.nil_append, List.cons_append] at e1 ⊢
          rw [levenshtein_cons_cons a y [] (ys' ++ [b]), e1,
            levenshtein_cons_cons a y [] ys']
          simp only [levenshtein_nil_left, List.length_append,
            List.length_cons, List.length_nil]
          split_ifs <;> omega
      | x :: xs', [] =>
          have e1 := ih xs' [] (by simp at h ⊢; omega)
          simp only [List.nil_append, List.cons_append] at e1 ⊢
          rw [levenshtein_cons_cons x b (xs' ++ [a]) [], e1,
            levenshtein_cons_cons x b xs' []]
          simp only [levenshtein_nil_right, List.length_append,
            List.length_cons, List.length_nil]
          split_ifs <;> omega
      | x :: xs', y :: ys' =>
          have e1 := ih (x :: xs') ys' (by simp at h ⊢; omega)
          have e2 := ih xs' (y :: ys') (by simp at h ⊢; omega)
          have e3 := ih xs' ys' (by simp at h ⊢; omega)
          simp only [List.cons_append] at e1 e2 e3 ⊢
          rw [levenshtein_cons_cons x y (xs' ++ [a]) (ys' ++ [b]), e1, e2, e3,
            levenshtein_cons_cons x y (xs' ++ [a]) ys',
            levenshtein_cons_cons x y xs' (ys' ++ [b]),
            levenshtein_cons_cons x y xs' ys']
          exact min9_shuffle _ _ _ _ _ _ _ _ _ _ _

/-- The edit distance satisfies the recurrence on the last characters
of its arguments. -/
theorem levenshtein_snoc (a b : Char) (xs ys : Str) :
    levenshtein (xs ++ [a]) (ys ++ [b]) =
      min (min (levenshtein (xs ++ [a]) ys + 1) (levenshtein xs (ys ++ [b]) + 1))
        (levenshtein xs ys + if a = b then 0 else 1) :=
  levenshtein_snoc_aux a b (xs.length + ys.length) xs ys (Nat.le_refl _)

theorem levenshtein_reverse_aux :
    ∀ (n : Nat) (xs ys : Str), xs.length + ys.length ≤ n →
      levenshtein xs.reverse ys.reverse = levenshtein xs ys := by
  intro n
  induction n with
  | zero =>
      intro xs ys h
      have hx : xs = [] := by
        cases xs with
        | nil => rfl
        | cons z zs => simp at h
      have hy : ys = [] := by
        cases ys with
        | nil => rfl
        | cons z zs => simp [hx] at h
      subst hx; subst hy; rfl
  | succ n ih =>
      intro xs ys h
      match xs, ys with
      | [], ys => simp [levenshtein_nil_left]
      | x :: xs', [] => simp [levenshtein_nil_right]
      | x :: xs', y :: ys' =>
          have e1 := ih (x :: xs') ys' (by simp at h ⊢; omega)
          have e2 := ih xs' (y :: ys') (by simp at h ⊢; omega)
          have e3 := ih xs' ys' (by simp at h ⊢; omega)
          calc levenshtein (x :: xs').reverse (y :: ys').reverse
              = levenshtein (xs'.reverse ++ [x]) (ys'.reverse ++ [y]) := by
                simp
            _ = min (min (levenshtein (xs'.reverse ++ [x]) ys'.reverse + 1)
                  (levenshtein xs'.reverse (ys'.reverse ++ [y]) + 1))
                  (levenshtein xs'.reverse ys'.reverse + if x = y then 0 else 1) :=
                levenshtein_snoc x y xs'.reverse ys'.reverse
            _ = min (min (levenshtein (x :: xs') ys' + 1)
                  (levenshtein xs' (y :: ys') + 1))
                  (levenshtein xs' ys' + if x = y then 0 else 1) := by
                have r1 : levenshtein (xs'.reverse ++ [x]) ys'.reverse
                    = levenshtein (x :: xs') ys' := by
                  have := e1
                  simpa using this
                have r2 : levenshtein xs'.reverse (ys'.reverse ++ [y])
                    = levenshtein xs' (y :: ys') := by
                  have := e2
                  simpa using this
                rw [r1, r2, e3]
            _ = levenshtein (x :: xs') (y :: ys') :=
                (levenshtein_cons_cons x y xs' ys').symm

/-- Edit distance is invariant under reversing both strings. -/
theorem levenshtein_reverse (xs ys : Str) :
    levenshtein xs.reverse ys.reverse = levenshtein xs ys :=
  levenshtein_reverse_aux (xs.length + ys.length) xs ys (Nat.le_refl _)

theorem levenshtein_comm_aux :
    ∀ (n : Nat) (xs ys : Str), xs.length + ys.length ≤ n →
      levenshtein xs ys = levenshtein ys xs := by
  intro n
  induction n with
  | zero =>
      intro xs ys h
      have hx : xs = [] := by
        cases xs with
        | nil => rfl
        | cons z zs => simp at h
      have hy : ys = [] := by
        cases ys with
        | nil => rfl
        | cons z zs => simp [hx] at h
      subst hx; subst hy; rfl
  | succ n ih =>
      intro xs ys h
      match xs, ys with
      | [], ys => simp [levenshtein_nil_left, levenshtein_nil_right]
      | x :: xs', [] => simp [levenshtein_nil_left, levenshtein_nil_right]
      | x :: xs', y :: ys' =>
          have e1 := ih (x :: xs') ys' (by simp at h ⊢; omega)
          have e2 := ih xs' (y :: ys') (by simp at h ⊢; omega)
          have e3 := ih xs' ys' (by simp at h ⊢; omega)
          rw [levenshtein_cons_cons x y xs' ys', levenshtein_cons_cons y x ys' xs',
            e1, e2, e3]
          have : (if x = y then 0 else 1) = (if y = x then 0 else 1) := by
            simp [eq_comm]
          rw [this]
          omega

/-- Edit distance is symmetric. -/
theorem levenshtein_comm (xs ys : Str) :
    levenshtein xs ys = levenshtein ys xs :=
  levenshtein_comm_aux (xs.length + ys.length) xs ys (Nat.le_refl _)

/-- Edit distance is at most the length of the longer string. -/
theorem levenshtein_le_max :
    ∀ (n : Nat) (xs ys : Str), xs.length + ys.length ≤ n →
      levenshtein xs ys ≤ max xs.length ys.length := by
  intro n
  induction n with
  | zero =>
      intro xs ys h
      have hx : xs = [] := by
        cases xs with
        | nil => rfl
        | cons z zs => simp at h
      have hy : ys = [] := by
        cases ys with
        | nil => rfl
        | cons z zs => simp [hx] at h
      subst hx; subst hy; simp [levenshtein_nil_left]
  | succ n ih =>
      intro xs ys h
      match xs, ys with
      | [], ys => simp [levenshtein_nil_left]
      | x :: xs', [] => simp [levenshtein_nil_right]
      | x :: xs', y :: ys' =>
          have e3 := ih xs' ys' (by simp at h ⊢; omega)
          rw [levenshtein_cons_cons x y xs' ys']
          have hind : (if x = y then 0 else 1) ≤ 1 := by split_ifs <;> omega
          simp only [List.length_cons]
          omega

/-- The DP matrix entry `(j, i)` is the edit distance between the
reversed `i`-prefix of `n1` and the reversed `j`-prefix of `n2`. -/
theorem levMatrix_eq_levenshtein (n1 n2 : Str) :
    ∀ (j i : Nat), i ≤ n1.length → j ≤ n2.length →
      levMatrix n1 n2 j i = levenshtein ((n1.take i).reverse) ((n2.take j).reverse)
  | 0, i, hi, _ => by
      rw [levMatrix_zero_row]
      simp [levenshtein_nil_right, Nat.min_eq_left hi]
  | j + 1, 0, _, hj => by
      rw [levMatrix_zero_col]
      simp [levenshtein_nil_left, Nat.min_eq_left hj]
  | j + 1, i + 1, hi, hj => by
      have hi' : i < n1.length := hi
      have hj' : j < n2.length := hj
      have t1 : (n1.take (i + 1)).reverse = n1.get ⟨i, hi'⟩ :: (n1.take i).reverse := by
        rw [← List.take_concat_get n1 i hi']
        simp
      have t2 : (n2.take (j + 1)).reverse = n2.get ⟨j, hj'⟩ :: (n2.take j).reverse := by
        rw [← List.take_concat_get n2 j hj']
        simp
      have g1 : n1.getD i 'a' = n1.get ⟨i, hi'⟩ := by
        simp [List.getD_eq_getElem?_getD, List.getElem?_eq_getElem hi']
      have g2 : n2.getD j 'a' = n2.get ⟨j, hj'⟩ := by
        simp [List.getD_eq_getElem?_getD, List.getElem?_eq_getElem hj']
      have e1 := levMatrix_eq_levenshtein n1 n2 (j + 1) i (Nat.le_of_lt hi') hj
      have e2 := levMatrix_eq_levenshtein n1 n2 j (i + 1) hi (Nat.le_of_lt hj')
      have e3 := levMatrix_eq_levenshtein n1 n2 j i (Nat.le_of_lt hi') (Nat.le_of_lt hj')
      rw [levMatrix_succ_succ, e1, e2, e3, t1, t2, g1, g2]
      conv_rhs => rw [levenshtein_cons_cons]
      rw [← t1, ← t2]
      omega

/-- The bottom-right matrix entry read by `calculateNameSimilarity` is
the Levenshtein distance of the two normalized strings. -/
theorem levMatrix_full (n1 n2 : Str) :
    levMatrix n1 n2 n2.length n1.length = levenshtein n1 n2 := by
  rw [levMatrix_eq_levenshtein n1 n2 n2.length n1.length (Nat.le_refl _) (Nat.le_refl _)]
  simp [levenshtein_reverse]

theorem normalize_max_pos {a b : Str} (h : normalize a ≠ normalize b) :
    0 < max (normalize a).length (normalize b).length := by
  rcases Nat.eq_zero_or_pos (max (normalize a).length (normalize b).length) with h0 | h0
  · exfalso
    apply h
    have h1 : (normalize a).length = 0 := by omega
    have h2 : (normalize b).length = 0 := by omega
    rw [List.length_eq_zero] at h1 h2
    rw [h1, h2]
  · exact h0

/-- Closed form of `calculateNameSimilarity` in terms of the
mathematical Levenshtein distance (shared helper). -/
theorem nameSim_eq (a b : Str) :
    calculateNameSimilarity a b =
      if normalize a = normalize b then 1
      else (((max (normalize a).length (normalize b).length : ℕ) : ℚ)
          - (levenshtein (normalize a) (normalize b) : ℚ))
        / ((max (normalize a).length (normalize b).length : ℕ) : ℚ) := by
  unfold calculateNameSimilarity
  by_cases h : normalize a = normalize b
  · simp [h]
  · have hmax := normalize_max_pos h
    simp only [h, if_false]
    rw [if_neg (by omega), levMatrix_full]

theorem nameSim_self (s : Str) : calculateNameSimilarity s s = 1 := by
  rw [nameSim_eq]
  simp

theorem nameSim_nonneg (a b : Str) : 0 ≤ calculateNameSimilarity a b := by
  rw [nameSim_eq]
  split_ifs with h
  · norm_num
  · have hmax := normalize_max_pos h
    have hd : levenshtein (normalize a) (normalize b)
        ≤ max (normalize a).length (normalize b).length :=
      levenshtein_le_max _ _ _ (Nat.le_refl _)
    have h1 : ((levenshtein (normalize a) (normalize b) : ℚ))
        ≤ (((max (normalize a).length (normalize b).length : ℕ)) : ℚ) := by
      exact_mod_cast hd
    apply div_nonneg
    · linarith
    · positivity

theorem nameSim_le_one (a b : Str) : calculateNameSimilarity a b ≤ 1 := by
  rw [nameSim_eq]
  split_ifs with h
  · norm_num
  · have hmax := normalize_max_pos h
    have hmaxQ : (0 : ℚ) < (((max (normalize a).length (normalize b).length : ℕ)) : ℚ) := by
      exact_mod_cast hmax
    have hd : (0 : ℚ) ≤ ((levenshtein (normalize a) (normalize b) : ℚ)) := by
      positivity
    rw [div_le_one hmaxQ]
    linarith

/-! ### Claim theorems for the similarity scorer -/

/-- C2: `NameSimilarity` normalizes both strings (lowercase, trim,
collapse internal whitespace), returns `1` when the normalized strings
are equal (in particular when both are empty), and otherwise returns
`(maxLen - d) / maxLen` where `d` is the unit-cost Levenshtein
distance between the normalized strings and `maxLen` the maximum of
their lengths; in particular
`NameSimilarity("kitten", "sitting") = 4/7`. -/
theorem nameSimilarity_matches_levenshtein_spec :
    (∀ a b : Str,
      calculateNameSimilarity a b =
        if normalize a = normalize b then 1
        else (((max (normalize a).length (normalize b).length : ℕ) : ℚ)
            - (levenshtein (normalize a) (normalize b) : ℚ))
          / ((max (normalize a).length (normalize b).length : ℕ) : ℚ)) ∧
    calculateNameSimilarity ['k','i','t','t','e','n'] ['s','i','t','t','i','n','g']
      = 4 / 7 := by
  constructor
  · exact nameSim_eq
  · with_unfolding_all decide

/-- C9: `NameSimilarity` is symmetric in its two arguments. -/
theorem nameSimilarity_symm (a b : Str) :
    calculateNameSimilarity a b = calculateNameSimilarity b a := by
  rw [nameSim_eq a b, nameSim_eq b a]
  by_cases h : normalize a = normalize b
  · rw [if_pos h, if_pos h.symm]
  · rw [if_neg h, if_neg (fun e => h e.symm),
      levenshtein_comm (normalize a) (normalize b), Nat.max_comm]

/-! ### The weighted overall match score (lines 149-198) -/

/-- The five identifier keys the scorer consults (the `fields` array,
line 179). -/
def matchScoreFields : List (CountryData → Option Str) :=
  [fun cd => cd.nhsNumber, fun cd => cd.mrn, fun cd => cd.hospitalUidAadhaar,
   fun cd => cd.ssn, fun cd => cd.healthInsurancePolicyNumber]

/-- The age component (line 162): `1` on equality, otherwise linear
decay, floored at `0`, reaching `0` ten years apart. -/
def ageScoreOf (a pa : Nat) : ℚ :=
  if a = pa then 1 else max 0 (1 - |(a : ℚ) - (pa : ℚ)| / 10)

/-- The consulted identifier keys carrying a truthy value on both
sides (`searchValue && patientValue`, line 185). -/
def commonIdFields (scd pcd : CountryData) : List (CountryData → Option Str) :=
  matchScoreFields.filter (fun f => truthyS (f scd) && truthyS (f pcd))

/-- The common keys whose values agree exactly
(`searchValue === patientValue`, line 186). -/
def agreeingIdFields (scd pcd : CountryData) : List (CountryData → Option Str) :=
  (commonIdFields scd pcd).filter (fun f => decide (f scd = f pcd))

/-- `calculateOverallMatchScore` (lines 149-198).  The source
accumulates `score` and `totalWeight` imperatively over four guarded
components (name 0.4, age 0.2, country 0.1, identifiers 0.3); the
accumulated totals are exactly the two guarded sums below, and the
result is `score / totalWeight` when `totalWeight > 0`, else `0`. -/
def calculateOverallMatchScore (searchData : PartialPatient) (patient : PatientDoc) : ℚ :=
  let idCommon : Nat :=
    match searchData.countryData with
    | some scd => (commonIdFields scd patient.countryData).length
    | none => 0
  let idAgree : Nat :=
    match searchData.countryData with
    | some scd => (agreeingIdFields scd patient.countryData).length
    | none => 0
  let score : ℚ :=
    (if truthyS searchData.name then
      calculateNameSimilarity (searchData.name.getD []) patient.name * 0.4 else 0)
    + (if searchData.age.isSome then
        ageScoreOf (searchData.age.getD 0) patient.age * 0.2 else 0)
    + (if searchData.country.isSome then
        (if searchData.country = some patient.country then (1 : ℚ) else 0) * 0.1 else 0)
    + (if 0 < idCommon then ((idAgree : ℚ) / (idCommon : ℚ)) * 0.3 else 0)
  let totalWeight : ℚ :=
    (if truthyS searchData.name then (0.4 : ℚ) else 0)
    + (if searchData.age.isSome then (0.2 : ℚ) else 0)
    + (if searchData.country.isSome then (0.1 : ℚ) else 0)
    + (if 0 < idCommon then (0.3 : ℚ) else 0)
  if 0 < totalWeight then score / totalWeight else 0

theorem ageScoreOf_nonneg (a pa : Nat) : 0 ≤ ageScoreOf a pa := by
  unfold ageScoreOf
  split_ifs
  · norm_num
  · exact le_max_left 0 _

theorem ageScoreOf_le_one (a pa : Nat) : ageScoreOf a pa ≤ 1 := by
  unfold ageScoreOf
  split_ifs
  · norm_num
  · apply max_le
    · norm_num
    · have : (0 : ℚ) ≤ |(a : ℚ) - (pa : ℚ)| / 10 := by positivity
      linarith

theorem agreeing_le_common (scd pcd : CountryData) :
    (agreeingIdFields scd pcd).length ≤ (commonIdFields scd pcd).length :=
  List.length_filter_le _ _

theorem ite_comp_nonneg {c : Prop} [Decidable c] {x w : ℚ} (hx : 0 ≤ x) (hw : 0 ≤ w) :
    0 ≤ if c then x * w else 0 := by
  split_ifs
  · exact mul_nonneg hx hw
  · exact le_refl 0

theorem ite_comp_le {c : Prop} [Decidable c] {x w : ℚ} (hx1 : x ≤ 1) (hw : 0 ≤ w) :
    (if c then x * w else 0) ≤ (if c then w else 0) := by
  split_ifs
  · nlinarith
  · exact le_refl 0

theorem ite_weight_nonneg {c : Prop} [Decidable c] {w : ℚ} (hw : 0 ≤ w) :
    0 ≤ if c then w else 0 := by
  split_ifs
  · exact hw
  · exact le_refl 0

theorem weighted_div_bounds {S1 S2 S3 S4 W1 W2 W3 W4 : ℚ}
    (h1 : 0 ≤ S1) (h2 : 0 ≤ S2) (h3 : 0 ≤ S3) (h4 : 0 ≤ S4)
    (l1 : S1 ≤ W1) (l2 : S2 ≤ W2) (l3 : S3 ≤ W3) (l4 : S4 ≤ W4) :
    0 ≤ (if 0 < W1 + W2 + W3 + W4 then (S1 + S2 + S3 + S4) / (W1 + W2 + W3 + W4) else 0)
    ∧ (if 0 < W1 + W2 + W3 + W4 then (S1 + S2 + S3 + S4) / (W1 + W2 + W3 + W4) else 0)
      ≤ 1 := by
  split_ifs with hpos
  · constructor
    · apply div_nonneg _ (le_of_lt hpos)
      linarith
    · rw [div_le_one hpos]
      linarith
  · norm_num

/-- C8: `OverallScore` always lies in `[0, 1]`, and equals exactly `1`
when query and candidate agree on all four weighted fields (name, age,
country and the identifier map). -/
theorem overallScore_range_and_identity (sd : PartialPatient) (p : PatientDoc) :
    (0 ≤ calculateOverallMatchScore sd p ∧ calculateOverallMatchScore sd p ≤ 1) ∧
    (sd.name = some p.name → sd.age = some p.age → sd.country = some p.country →
      sd.countryData = some p.countryData → calculateOverallMatchScore sd p = 1) := by
  constructor
  · unfold calculateOverallMatchScore
    simp only []
    set idC : Nat := (match sd.countryData with
      | some scd => (commonIdFields scd p.countryData).length
      | none => 0) with hidC
    set idA : Nat := (match sd.countryData with
      | some scd => (agreeingIdFields scd p.countryData).length
      | none => 0) with hidA
    have hAgreeLe : idA ≤ idC := by
      rw [hidC, hidA]
      cases sd.countryData with
      | none => exact Nat.le_refl 0
      | some scd => exact agreeing_le_common scd p.countryData
    have hRatio0 : (0 : ℚ) ≤ (idA : ℚ) / (idC : ℚ) := by positivity
    have hRatio1 : (idA : ℚ) / (idC : ℚ) ≤ 1 := by
      rcases Nat.eq_zero_or_pos idC with h0 | h0
      · rw [h0]
        norm_num
      · rw [div_le_one (by exact_mod_cast h0)]
        exact_mod_cast hAgreeLe
    have hCountry0 : (0 : ℚ) ≤ (if sd.country = some p.country then (1 : ℚ) else 0) := by
      split_ifs <;> norm_num
    have hCountry1 : (if sd.country = some p.country then (1 : ℚ) else 0) ≤ 1 := by
      split_ifs <;> norm_num
    exact weighted_div_bounds
      (ite_comp_nonneg (nameSim_nonneg (sd.name.getD []) p.name) (by norm_num))
      (ite_comp_nonneg (ageScoreOf_nonneg (sd.age.getD 0) p.age) (by norm_num))
      (ite_comp_nonneg hCountry0 (by norm_num))
      (ite_comp_nonneg hRatio0 (by norm_num))
      (ite_comp_le (nameSim_le_one (sd.name.getD []) p.name) (by norm_num))
      (ite_comp_le (ageScoreOf_le_one (sd.age.getD 0) p.age) (by norm_num))
      (ite_comp_le hCountry1 (by norm_num))
      (ite_comp_le hRatio1 (by norm_num))
  · intro h1 h2 h3 h4
    have hAgreeEq : agreeingIdFields p.countryData p.countryData
        = commonIdFields p.countryData p.countryData := by
      apply List.filter_eq_self.mpr
      intro f hf
      simp
    have hage : ageScoreOf p.age p.age = 1 := by simp [ageScoreOf]
    unfold calculateOverallMatchScore
    rw [h1, h2, h3, h4]
    simp only [Option.isSome_some, Option.getD_some, hAgreeEq, hage, nameSim_self]
    rcases Bool.eq_false_or_eq_true (truthyS (some p.name)) with hn | hn <;>
      rcases Nat.eq_zero_or_pos (commonIdFields p.countryData p.countryData).length
        with hc | hc <;>
      simp only [hn, hc, if_pos rfl] <;>
      norm_num
    · have hne : ((commonIdFields p.countryData p.countryData).length : ℚ) ≠ 0 := by
        exact_mod_cast Nat.pos_iff_ne_zero.mp hc
      rw [div_self hne]
      norm_num
    · have hne : ((commonIdFields p.countryData p.countryData).length : ℚ) ≠ 0 := by
        exact_mod_cast Nat.pos_iff_ne_zero.mp hc
      rw [div_self hne]
      norm_num

/-- Witness for C8: a concrete query identical to a concrete stored
record scores exactly `1`. -/
theorem overallScore_identity_witness :
    calculateOverallMatchScore
      ⟨some ['a','b'], some 30, some Country.UK, some { nhsNumber := some ['1'] }⟩
      ⟨1, ['a','b'], 30, Country.UK, { nhsNumber := some ['1'] }⟩ = 1 :=
  (overallScore_range_and_identity
    ⟨some ['a','b'], some 30, some Country.UK, some { nhsNumber := some ['1'] }⟩
    ⟨1, ['a','b'], 30, Country.UK, { nhsNumber := some ['1'] }⟩).2 rfl rfl rfl rfl

/-! ### Spec-side formulation of the overall score (for C3) -/

/-- Modelled from the spec (§4.1): the list of included weighted
components, each a pair `(component score, weight)`, a component being
included only when both sides provide the relevant data.  The
identifier component ranges over the five keys of `matchScoreFields`
(the source consults exactly these; this is the amendment forced by
the code, which never consults the three Japan-specific keys). -/
def specComponents (sd : PartialPatient) (p : PatientDoc) : List (ℚ × ℚ) :=
  (if truthyS sd.name then
    [(calculateNameSimilarity (sd.name.getD []) p.name, (0.4 : ℚ))] else [])
  ++ (if sd.age.isSome then [(ageScoreOf (sd.age.getD 0) p.age, (0.2 : ℚ))] else [])
  ++ (if sd.country.isSome then
      [((if sd.country = some p.country then (1 : ℚ) else 0), (0.1 : ℚ))] else [])
  ++ (match sd.countryData with
      | some scd =>
          if 0 < (commonIdFields scd p.countryData).length then
            [(((agreeingIdFields scd p.countryData).length : ℚ)
                / ((commonIdFields scd p.countryData).length : ℚ), (0.3 : ℚ))]
          else []
      | none => [])

def sumQ (l : List ℚ) : ℚ := l.foldr (fun x acc => x + acc) 0

/-- Modelled from the spec (§4.1): weighted sum of the included
components divided by the sum of the included weights; `0` when no
component qualifies. -/
def specOverallScore (sd : PartialPatient) (p : PatientDoc) : ℚ :=
  let comps := specComponents sd p
  let total := sumQ (comps.map (fun c => c.2))
  if 0 < total then sumQ (comps.map (fun c => c.1 * c.2)) / total else 0

theorem overallScore_eq_spec (sd : PartialPatient) (p : PatientDoc) :
    calculateOverallMatchScore sd p = specOverallScore sd p := by
  unfold calculateOverallMatchScore specOverallScore specComponents
  cases hcd : sd.countryData with
  | none =>
      rcases Bool.eq_false_or_eq_true (truthyS sd.name) with hn | hn <;>
        rcases Bool.eq_false_or_eq_true sd.age.isSome with ha | ha <;>
        rcases Bool.eq_false_or_eq_true sd.country.isSome with hc | hc <;>
        simp [hn, ha, hc, sumQ] <;>
        norm_num <;>
        ring
  | some scd =>
      rcases Bool.eq_false_or_eq_true (truthyS sd.name) with hn | hn <;>
        rcases Bool.eq_false_or_eq_true sd.age.isSome with ha | ha <;>
        rcases Bool.eq_false_or_eq_true sd.country.isSome with hc | hc <;>
        rcases Nat.eq_zero_or_pos (commonIdFields scd p.countryData).length with hcm | hcm <;>
        simp [hn, ha, hc, hcm, sumQ] <;>
        norm_num <;>
        ring

/-- Overwrite the three Japan-specific identifier fields of a
country-data object. -/
def setJapanFields (cd : CountryData) (u v w : Option Str) : CountryData :=
  { cd with
    hospitalPatientID := u
    nationalHealthInsuranceCardNumber := v
    prefectureCode := w }

def setJapanFieldsP (sd : PartialPatient) (u v w : Option Str) : PartialPatient :=
  { sd with countryData := sd.countryData.map (fun cd => setJapanFields cd u v w) }

def setJapanFieldsDoc (p : PatientDoc) (u v w : Option Str) : PatientDoc :=
  { p with countryData := setJapanFields p.countryData u v w }

theorem commonIdFields_setJapan (a b : CountryData) (u v w u2 v2 w2 : Option Str) :
    commonIdFields (setJapanFields a u v w) (setJapanFields b u2 v2 w2)
      = commonIdFields a b := by
  simp [commonIdFields, matchScoreFields, setJapanFields, List.filter_cons]

theorem agreeingIdFields_setJapan (a b : CountryData) (u v w u2 v2 w2 : Option Str) :
    agreeingIdFields (setJapanFields a u v w) (setJapanFields b u2 v2 w2)
      = agreeingIdFields a b := by
  unfold agreeingIdFields
  rw [commonIdFields_setJapan]
  apply List.filter_congr
  intro f hf
  have hf5 : f ∈ matchScoreFields := List.mem_of_mem_filter hf
  simp only [matchScoreFields, List.mem_cons, List.not_mem_nil, or_false] at hf5
  rcases hf5 with h | h | h | h | h <;> subst h <;> simp [setJapanFields]

theorem overallScore_setJapan (sd : PartialPatient) (p : PatientDoc)
    (u v w u2 v2 w2 : Option Str) :
    calculateOverallMatchScore (setJapanFieldsP sd u v w) (setJapanFieldsDoc p u2 v2 w2)
      = calculateOverallMatchScore sd p := by
  unfold calculateOverallMatchScore setJapanFieldsP setJapanFieldsDoc
  cases hcd : sd.countryData with
  | none => simp [hcd]
  | some scd =>
      simp [hcd, commonIdFields_setJapan, agreeingIdFields_setJapan]

/-- C3 (amended): the identifier component of `OverallScore` (weight
0.3) averages exact-equality over the five keys `nhsNumber`, `mrn`,
`hospitalUidAadhaar`, `ssn`, `healthInsurancePolicyNumber` that carry
values on both sides, and the component is excluded from the
renormalized sum exactly when none of these five keys is present on
both sides; the three Japan-specific keys (`hospitalPatientID`,
`nationalHealthInsuranceCardNumber`, `prefectureCode`) are never
consulted, so changing them on either side never changes the score. -/
theorem overallScore_identifier_component_spec :
    (∀ (sd : PartialPatient) (p : PatientDoc),
      calculateOverallMatchScore sd p = specOverallScore sd p) ∧
    (∀ (sd : PartialPatient) (p : PatientDoc) (u v w u2 v2 w2 : Option Str),
      calculateOverallMatchScore (setJapanFieldsP sd u v w)
        (setJapanFieldsDoc p u2 v2 w2) = calculateOverallMatchScore sd p) :=
  ⟨overallScore_eq_spec, overallScore_setJapan⟩

/-- Counterexample to C3 as stated: both sides carry (different)
values for Japan identifier `hospitalPatientID` and agree on the name,
yet the score is `1`: the identifier component (which the claim says
is included with weight 0.3 and average 0) is silently dropped,
whereas the claim would give `(0.4 * 1 + 0.3 * 0) / (0.4 + 0.3) ≠ 1`. -/
theorem overallScore_japan_ignored_counterexample :
    calculateOverallMatchScore
        { name := some ['a','b'],
          countryData := some { hospitalPatientID := some ['1'] } }
        ⟨1, ['a','b'], 5, Country.Japan, { hospitalPatientID := some ['2'] }⟩ = 1 ∧
    ((0.4 * 1 + 0.3 * 0) / (0.4 + 0.3) : ℚ) ≠ 1 := by
  constructor
  · with_unfolding_all decide
  · norm_num

/-! ### Country-specific validation (`validateCountrySpecificFields`,
lines 200-236) -/

def nameRequiredMsg : Str := "Name is required".toList
def ageRequiredMsg : Str := "Age is required".toList
def nhsRequiredMsg : Str := "NHS Number is required".toList
def nhsFormatMsg : Str := "NHS Number must be 10 digits".toList
def mrnRequiredMsg : Str := "Medical Record Number is required".toList
def ssnFormatMsg : Str := "SSN must be in format XXX-XX-XXXX".toList
def aadhaarRequiredMsg : Str := "Hospital UID/Aadhaar is required".toList
def hospitalPatientIdRequiredMsg : Str := "Hospital Patient ID is required".toList

/-- The pattern `^[0-9]{10}$` (line 210). -/
def nhsNumberFormat (s : Str) : Bool :=
  s.length == 10 && s.all Char.isDigit

/-- The pattern `^[0-9]{3}-[0-9]{2}-[0-9]{4}$` (line 219). -/
def ssnFormat : Str → Bool
  | [a, b, c, h1, d, e, h2, f, g, h, i] =>
      h1 == '-' && h2 == '-' && [a, b, c, d, e, f, g, h, i].all Char.isDigit
  | _ => false

/-- `validateCountrySpecificFields` (lines 200-236): returns
immediately when `country` or `countryData` is falsy, otherwise
switches on the country and accumulates messages in source order. -/
def validateCountrySpecificFields (data : PartialPatient) : List Str :=
  match data.country, data.countryData with
  | some country, some countryData =>
      match country with
      | Country.UK =>
          (if !truthyS data.name then [nameRequiredMsg] else [])
          ++ (if !truthyN data.age then [ageRequiredMsg] else [])
          ++ (if !truthyS countryData.nhsNumber then [nhsRequiredMsg]
              else if !nhsNumberFormat (countryData.nhsNumber.getD []) then [nhsFormatMsg]
              else [])
      | Country.US =>
          (if !truthyS data.name then [nameRequiredMsg] else [])
          ++ (if !truthyN data.age then [ageRequiredMsg] else [])
          ++ (if !truthyS countryData.mrn then [mrnRequiredMsg] else [])
          ++ (if truthyS countryData.ssn && !ssnFormat (countryData.ssn.getD [])
              then [ssnFormatMsg] else [])
      | Country.India =>
          (if !truthyS data.name then [nameRequiredMsg] else [])
          ++ (if !truthyN data.age then [ageRequiredMsg] else [])
          ++ (if !truthyS countryData.hospitalUidAadhaar then [aadhaarRequiredMsg]
              else [])
      | Country.Japan =>
          (if !truthyS data.name then [nameRequiredMsg] else [])
          ++ (if !truthyN data.age then [ageRequiredMsg] else [])
          ++ (if !truthyS countryData.hospitalPatientID
              then [hospitalPatientIdRequiredMsg] else [])
  | _, _ => []

/-- One identifier rule of the validation table: how to read the key,
the message to emit when the key is required but missing, and an
optional format constraint with its message. -/
structure IdRule where
  get : CountryData → Option Str
  requiredMsg : Option Str
  pattern : Option ((Str → Bool) × Str)

/-- Modelled from the spec (§4.2): the static rule table keyed by the
four countries, listing the required identifier keys and the optional
per-key format constraints, in declared order (name and age, always
required, are handled before the table). -/
def ruleTable : Country → List IdRule
  | Country.UK =>
      [⟨fun cd => cd.nhsNumber, some nhsRequiredMsg,
        some (nhsNumberFormat, nhsFormatMsg)⟩]
  | Country.US =>
      [⟨fun cd => cd.mrn, some mrnRequiredMsg, none⟩,
       ⟨fun cd => cd.ssn, none, some (ssnFormat, ssnFormatMsg)⟩]
  | Country.India =>
      [⟨fun cd => cd.hospitalUidAadhaar, some aadhaarRequiredMsg, none⟩]
  | Country.Japan =>
      [⟨fun cd => cd.hospitalPatientID, some hospitalPatientIdRequiredMsg, none⟩]

/-- Messages produced by one identifier rule: the required message
when the key carries no value, the format message when a value is
present but fails the pattern. -/
def idRuleErrors (cd : CountryData) (r : IdRule) : List Str :=
  match r.get cd with
  | none => r.requiredMsg.toList
  | some v =>
      match r.pattern with
      | some pr => if pr.1 v then [] else [pr.2]
      | none => []

def concatAll : List (List Str) → List Str
  | [] => []
  | e :: es => e ++ concatAll es

/-- Modelled from the spec (§4.2): one human-readable message per
missing required field (name and age always required, then the
required identifier keys of the record country) and one per value
failing its format pattern, emitted in the rule table declared
order. -/
def specValidate (data : PartialPatient) : List Str :=
  match data.country, data.countryData with
  | some country, some countryData =>
      (if data.name.isSome then [] else [nameRequiredMsg])
      ++ (if data.age.isSome then [] else [ageRequiredMsg])
      ++ concatAll ((ruleTable country).map (idRuleErrors countryData))
  | _, _ => []

/-- The record invariant of the spec data model (§3): optional string
values are never the empty string and age is never `0`, so JavaScript
truthiness coincides with presence for every field the validator and
the retriever consult. -/
def WFCountryData : Option CountryData → Prop
  | none => True
  | some cd =>
      truthyS cd.nhsNumber = cd.nhsNumber.isSome ∧
      truthyS cd.mrn = cd.mrn.isSome ∧
      truthyS cd.ssn = cd.ssn.isSome ∧
      truthyS cd.hospitalUidAadhaar = cd.hospitalUidAadhaar.isSome ∧
      truthyS cd.hospitalPatientID = cd.hospitalPatientID.isSome

/-- A record satisfying the spec data-model invariant (§3). -/
def WFRecord (data : PartialPatient) : Prop :=
  truthyS data.name = data.name.isSome ∧
  truthyN data.age = data.age.isSome ∧
  WFCountryData data.countryData

/-- Modelled from the spec (§4.2): a record is compliant when name and
age are present, every required identifier key carries a value, and
every provided identifier value matches its format pattern. -/
def compliant (data : PartialPatient) : Prop :=
  data.name.isSome ∧ data.age.isSome ∧
  (∀ c cd, data.country = some c → data.countryData = some cd →
    ∀ r ∈ ruleTable c,
      (∀ m, r.requiredMsg = some m → (r.get cd).isSome) ∧
      (∀ v pr, r.get cd = some v → r.pattern = some pr → pr.1 v = true))

theorem concatAll_eq_nil (l : List (List Str)) :
    concatAll l = [] ↔ ∀ e ∈ l, e = [] := by
  induction l with
  | nil => simp [concatAll]
  | cons e es ih => simp [concatAll, ih]

theorem idRuleErrors_eq_nil (cd : CountryData) (r : IdRule) :
    idRuleErrors cd r = [] ↔
      ((∀ m, r.requiredMsg = some m → (r.get cd).isSome) ∧
       (∀ v pr, r.get cd = some v → r.pattern = some pr → pr.1 v = true)) := by
  unfold idRuleErrors
  cases hg : r.get cd with
  | none =>
      cases hr : r.requiredMsg with
      | none => simp [hr, Option.toList]
      | some m => simp [hr, hg, Option.toList]
  | some v =>
      cases hp : r.pattern with
      | none => simp [hp, hg]
      | some pr =>
          cases hb : pr.1 v with
          | false => simp [hp, hg, hb]
          | true => simp [hp, hg, hb]

theorem bool_not_ite (b : Bool) (x y : List Str) :
    (if (!b) = true then x else y) = if b = true then y else x := by
  cases b <;> simp

theorem ite_nil_iff (b : Bool) (m : Str) :
    (if b = true then ([] : List Str) else [m]) = [] ↔ b = true := by
  cases b <;> simp

theorem validate_eq_spec_aux (nm : Option Str) (ag : Option Nat)
    (co : Option Country) (cdo : Option CountryData)
    (hwnm : truthyS nm = nm.isSome) (hwag : truthyN ag = ag.isSome)
    (hwcd : WFCountryData cdo) :
    validateCountrySpecificFields ⟨nm, ag, co, cdo⟩
      = specValidate ⟨nm, ag, co, cdo⟩ := by
  cases co with
  | none => rfl
  | some c =>
      cases cdo with
      | none => cases c <;> rfl
      | some cd =>
          obtain ⟨w1, w2, w3, w4, w5⟩ := hwcd
          cases c
          · -- UK
            simp only [validateCountrySpecificFields, specValidate, ruleTable,
              List.map_cons, List.map_nil, concatAll, List.append_nil]
            rw [hwnm, hwag, bool_not_ite, bool_not_ite]
            congr 1
            cases hn : cd.nhsNumber with
            | none =>
                rw [hn] at w1
                simp [idRuleErrors, hn, w1, Option.toList]
            | some v =>
                rw [hn] at w1
                simp only [idRuleErrors, hn, w1, Option.isSome_some, Bool.not_true,
                  Bool.false_eq_true, if_false, Option.getD_some, bool_not_ite]
          · -- US
            simp only [validateCountrySpecificFields, specValidate, ruleTable,
              List.map_cons, List.map_nil, concatAll, List.append_nil]
            rw [hwnm, hwag, bool_not_ite, bool_not_ite, List.append_assoc]
            congr 1
            congr 1
            · cases hn : cd.mrn with
              | none =>
                  rw [hn] at w2
                  simp [idRuleErrors, hn, w2, Option.toList]
              | some v =>
                  rw [hn] at w2
                  simp [idRuleErrors, hn, w2]
            · cases hn : cd.ssn with
              | none =>
                  rw [hn] at w3
                  simp [idRuleErrors, hn, w3, Option.toList]
              | some v =>
                  rw [hn] at w3
                  simp only [idRuleErrors, hn, w3, Option.isSome_some, Bool.true_and,
                    Option.getD_some, bool_not_ite]
          · -- India
            simp only [validateCountrySpecificFields, specValidate, ruleTable,
              List.map_cons, List.map_nil, concatAll, List.append_nil]
            rw [hwnm, hwag, bool_not_ite, bool_not_ite]
            congr 1
            cases hn : cd.hospitalUidAadhaar with
            | none =>
                rw [hn] at w4
                simp [idRuleErrors, hn, w4, Option.toList]
            | some v =>
                rw [hn] at w4
                simp [idRuleErrors, hn, w4]
          · -- Japan
            simp only [validateCountrySpecificFields, specValidate, ruleTable,
              List.map_cons, List.map_nil, concatAll, List.append_nil]
            rw [hwnm, hwag, bool_not_ite, bool_not_ite]
            congr 1
            cases hn : cd.hospitalPatientID with
            | none =>
                rw [hn] at w5
                simp [idRuleErrors, hn, w5, Option.toList]
            | some v =>
                rw [hn] at w5
                simp [idRuleErrors, hn, w5]

theorem validate_eq_specValidate (data : PartialPatient) (hwf : WFRecord data) :
    validateCountrySpecificFields data = specValidate data := by
  obtain ⟨nm, ag, co, cdo⟩ := data
  exact validate_eq_spec_aux nm ag co cdo hwf.1 hwf.2.1 hwf.2.2

theorem specValidate_nil_iff (nm : Option Str) (ag : Option Nat)
    (c : Country) (cd : CountryData) :
    specValidate ⟨nm, ag, some c, some cd⟩ = []
      ↔ compliant ⟨nm, ag, some c, some cd⟩ := by
  unfold specValidate compliant
  simp only [List.append_eq_nil, concatAll_eq_nil, List.mem_map, ite_nil_iff]
  constructor
  · rintro ⟨⟨h1, h2⟩, h3⟩
    refine ⟨h1, h2, ?_⟩
    intro c0 cd0 hc0 hcd0 r hr
    injection hc0 with hc0
    injection hcd0 with hcd0
    subst hc0
    subst hcd0
    exact (idRuleErrors_eq_nil cd r).mp (h3 _ ⟨r, hr, rfl⟩)
  · rintro ⟨h1, h2, h3⟩
    refine ⟨⟨h1, h2⟩, ?_⟩
    rintro e ⟨r, hr, rfl⟩
    exact (idRuleErrors_eq_nil cd r).mpr (h3 c cd rfl rfl r hr)

/-- C4: over records satisfying the §3 data-model invariant,
`Validate` agrees with the table-driven `specValidate` (one message
per missing required field — name and age always required, then the
required identifier keys of the record country — and one per value
failing its format pattern, in the declared order), and on records
carrying a country and country-data object it returns the empty list
exactly when the record is compliant. -/
theorem validate_messages_match_rule_table (data : PartialPatient)
    (hwf : WFRecord data) :
    validateCountrySpecificFields data = specValidate data ∧
    (∀ c cd, data.country = some c → data.countryData = some cd →
      (validateCountrySpecificFields data = [] ↔ compliant data)) := by
  obtain ⟨nm, ag, co, cdo⟩ := data
  refine ⟨validate_eq_spec_aux nm ag co cdo hwf.1 hwf.2.1 hwf.2.2, ?_⟩
  intro c cd hco hcd
  have hco2 : co = some c := hco
  have hcd2 : cdo = some cd := hcd
  subst hco2
  subst hcd2
  rw [validate_eq_spec_aux nm ag (some c) (some cd) hwf.1 hwf.2.1 hwf.2.2]
  exact specValidate_nil_iff nm ag c cd

/-- Witness for C4: a UK record missing only the NHS number yields
exactly one error naming that field, and the theorem applies to it. -/
theorem validate_messages_witness :
    validateCountrySpecificFields
        ⟨some ['J','o','h','n'], some 30, some Country.UK, some {}⟩
      = [nhsRequiredMsg] ∧
    validateCountrySpecificFields
        ⟨some ['J','o','h','n'], some 30, some Country.UK, some {}⟩
      = specValidate ⟨some ['J','o','h','n'], some 30, some Country.UK, some {}⟩ ∧
    (validateCountrySpecificFields
        ⟨some ['J','o','h','n'], some 30, some Country.UK, some {}⟩ = []
      ↔ compliant ⟨some ['J','o','h','n'], some 30, some Country.UK, some {}⟩) := by
  refine ⟨by decide, (validate_messages_match_rule_table
      ⟨some ['J','o','h','n'], some 30, some Country.UK, some {}⟩
      ⟨rfl, rfl, rfl, rfl, rfl, rfl, rfl⟩).1,
    (validate_messages_match_rule_table
      ⟨some ['J','o','h','n'], some 30, some Country.UK, some {}⟩
      ⟨rfl, rfl, rfl, rfl, rfl, rfl, rfl⟩).2 Country.UK {} rfl rfl⟩

/-- C10 (implicit): whenever the country field or the countryData
object is absent, validation is silently skipped — the error list is
empty regardless of which required fields (including name and age) are
missing. -/
theorem validate_skipped_without_country_or_data (data : PartialPatient)
    (h : data.country = none ∨ data.countryData = none) :
    validateCountrySpecificFields data = [] := by
  obtain ⟨nm, ag, co, cdo⟩ := data
  rcases h with h | h
  · cases co with
    | none => cases cdo <;> rfl
    | some c => exact absurd h (by simp)
  · cases cdo with
    | none =>
        cases co with
        | none => rfl
        | some c => cases c <;> rfl
    | some cd => exact absurd h (by simp)

/-- Witness for C10: a UK record with no name and no countryData
object produces no validation errors. -/
theorem validate_skipped_witness :
    validateCountrySpecificFields ⟨none, some 30, some Country.UK, none⟩ = [] :=
  validate_skipped_without_country_or_data
    ⟨none, some 30, some Country.UK, none⟩ (Or.inr rfl)

/-! ### Candidate retrieval and match orchestration

`findDuplicates` (duplicateChecker.ts lines 82-119), `findMatches`
(lines 39-80) and the `POST /api/extract/match` handler
(routes/extraction.ts lines 116-132).  `Patient.find(q)` is modelled
as filtering the store by the predicate the filter object denotes: a
filter object is a conjunction of its field constraints, `$or` is a
disjunction, and the `$text` operator is an abstract predicate `tm`
supplied with the store. -/

/-- Case-insensitive substring test: the semantics of the
`new RegExp(name, 'i')` constraints on the `name` field (for names
free of regex metacharacters). -/
def isSubstring (pat : Str) : Str → Bool
  | [] => pat.isEmpty
  | c :: rest => pat.isPrefixOf (c :: rest) || isSubstring pat rest

def ciContains (pat s : Str) : Bool :=
  isSubstring (pat.map Char.toLower) (s.map Char.toLower)

/-- One clause of the `$or` duplicate query (lines 89-110). -/
inductive DupClause
  | nhsNumber (v : Str)
  | mrn (v : Str)
  | hospitalUidAadhaar (v : Str)
  | ssn (v : Str)
  | nameAgeCountry (name : Str) (age : Nat) (country : Country)
deriving DecidableEq

/-- Satisfaction of one duplicate-query clause by a stored document. -/
def satisfiesClause (p : PatientDoc) : DupClause → Bool
  | DupClause.nhsNumber v => decide (p.countryData.nhsNumber = some v)
  | DupClause.mrn v => decide (p.countryData.mrn = some v)
  | DupClause.hospitalUidAadhaar v => decide (p.countryData.hospitalUidAadhaar = some v)
  | DupClause.ssn v => decide (p.countryData.ssn = some v)
  | DupClause.nameAgeCountry n a c =>
      ciContains n p.name && decide (p.age = a) && decide (p.country = c)

/-- The disjunction `findDuplicates` builds (lines 83-110): one clause
per truthy unique identifier among nhsNumber, mrn, hospitalUidAadhaar
and ssn, plus the name-age-country clause when name, age and country
are all truthy. -/
def duplicateQueries (sd : PartialPatient) : List DupClause :=
  (match sd.countryData with
   | some cd =>
       (if truthyS cd.nhsNumber then [DupClause.nhsNumber (cd.nhsNumber.getD [])]
        else [])
       ++ (if truthyS cd.mrn then [DupClause.mrn (cd.mrn.getD [])] else [])
       ++ (if truthyS cd.hospitalUidAadhaar
           then [DupClause.hospitalUidAadhaar (cd.hospitalUidAadhaar.getD [])] else [])
       ++ (if truthyS cd.ssn then [DupClause.ssn (cd.ssn.getD [])] else [])
   | none => [])
  ++ (match sd.name, sd.age, sd.country with
      | some n, some a, some c =>
          if truthyS (some n) && truthyN (some a) then
            [DupClause.nameAgeCountry n a c]
          else []
      | _, _, _ => [])

/-- The conjunctive filter object `findMatches` builds for its exact
lookup (lines 44-55): a field is constrained exactly when the
corresponding input field is truthy (`ssn` is not consulted here). -/
structure ExactQuery where
  name : Option Str := none
  age : Option Nat := none
  country : Option Country := none
  nhsNumber : Option Str := none
  mrn : Option Str := none
  hospitalUidAadhaar : Option Str := none
deriving DecidableEq

def buildExactQuery (sd : PartialPatient) : ExactQuery :=
  { name := if truthyS sd.name then sd.name else none
    age := match sd.age with
      | some a => if a != 0 then some a else none
      | none => none
    country := sd.country
    nhsNumber := match sd.countryData with
      | some cd => if truthyS cd.nhsNumber then cd.nhsNumber else none
      | none => none
    mrn := match sd.countryData with
      | some cd => if truthyS cd.mrn then cd.mrn else none
      | none => none
    hospitalUidAadhaar := match sd.countryData with
      | some cd => if truthyS cd.hospitalUidAadhaar then cd.hospitalUidAadhaar else none
      | none => none }

/-- A stored document matches the filter object iff it satisfies every
included constraint (a Mongo filter is a conjunction). -/
def matchesExactQuery (q : ExactQuery) (p : PatientDoc) : Bool :=
  (match q.name with | some pat => ciContains pat p.name | none => true)
  && (match q.age with | some a => decide (p.age = a) | none => true)
  && (match q.country with | some c => decide (p.country = c) | none => true)
  && (match q.nhsNumber with
      | some v => decide (p.countryData.nhsNumber = some v) | none => true)
  && (match q.mrn with | some v => decide (p.countryData.mrn = some v) | none => true)
  && (match q.hospitalUidAadhaar with
      | some v => decide (p.countryData.hospitalUidAadhaar = some v) | none => true)

/-- The text query `findMatches` issues when a name is truthy (lines
61-66): `$text` search on the name, a country scope when the input
carries one (Mongoose drops `undefined` constraints), and exclusion of
the identities already returned by the exact lookup. -/
structure TextQuery where
  search : Str
  country : Option Country
  excludeIds : List Nat
deriving DecidableEq

def matchesTextQuery (tm : Str → PatientDoc → Bool) (tq : TextQuery)
    (p : PatientDoc) : Bool :=
  tm tq.search p
  && (match tq.country with | some c => decide (p.country = c) | none => true)
  && !(tq.excludeIds.contains p.id)

/-- An issued store query, for tracing which retrievals happen. -/
inductive StoreQuery
  | orFind (clauses : List DupClause)
  | exactFind (q : ExactQuery)
  | textFind (tq : TextQuery)
deriving DecidableEq

/-- `findDuplicates` (lines 82-119) together with the queries it
issues: with zero clauses it returns the empty set without querying;
otherwise one `$or` find returns every document satisfying at least
one clause. -/
def findDuplicatesTrace (store : List PatientDoc) (sd : PartialPatient) :
    List PatientDoc × List StoreQuery :=
  let queries := duplicateQueries sd
  if queries.isEmpty then ([], [])
  else (store.filter (fun p => queries.any (satisfiesClause p)),
    [StoreQuery.orFind queries])

def findDuplicates (store : List PatientDoc) (sd : PartialPatient) : List PatientDoc :=
  (findDuplicatesTrace store sd).1

/-- The stable descending insertion modelling
`sort((a, b) => b.matchScore - a.matchScore)` (line 77). -/
def orderedInsertDesc (a : PatientDoc × ℚ) :
    List (PatientDoc × ℚ) → List (PatientDoc × ℚ)
  | [] => [a]
  | b :: l => if b.2 ≤ a.2 then a :: b :: l else b :: orderedInsertDesc a l

def sortByScoreDesc : List (PatientDoc × ℚ) → List (PatientDoc × ℚ)
  | [] => []
  | a :: l => orderedInsertDesc a (sortByScoreDesc l)

structure MatchResult where
  exactMatches : List PatientDoc
  partialMatches : List (PatientDoc × ℚ)
deriving DecidableEq

/-- `findMatches` (lines 39-80) together with the queries it issues:
always one exact find with the conjunctive filter of
`buildExactQuery`; when the name is truthy, additionally one text find
scoped to the input country and excluding the identities already
returned, whose results are scored, thresholded at 0.5 and sorted
descending. -/
def findMatchesTrace (tm : Str → PatientDoc → Bool) (store : List PatientDoc)
    (sd : PartialPatient) : MatchResult × List StoreQuery :=
  let q := buildExactQuery sd
  let exactMatches := store.filter (matchesExactQuery q)
  let tq : TextQuery := ⟨sd.name.getD [], sd.country, exactMatches.map (fun p => p.id)⟩
  let scored :=
    if truthyS sd.name then
      ((store.filter (matchesTextQuery tm tq)).map
          (fun p => (p, calculateOverallMatchScore sd p))).filter
        (fun cand => decide ((0.5 : ℚ) < cand.2))
    else []
  (⟨exactMatches, sortByScoreDesc scored⟩,
    StoreQuery.exactFind q
      :: (if truthyS sd.name then [StoreQuery.textFind tq] else []))

def findMatches (tm : Str → PatientDoc → Bool) (store : List PatientDoc)
    (sd : PartialPatient) : MatchResult :=
  (findMatchesTrace tm store sd).1

structure DuplicateAnalysis where
  isDuplicate : Bool
  duplicatePatients : List PatientDoc
  suggestions : List (Str × ℚ)
  validationErrors : List Str
deriving DecidableEq

/-- `analyzeDuplicates` (lines 6-37): the duplicates from
`findDuplicates`, one name suggestion per duplicate whose similarity
to the input name (empty when absent) exceeds 0.8, and the validation
errors; its trace is the duplicate-lookup trace. -/
def analyzeDuplicatesTrace (store : List PatientDoc) (sd : PartialPatient) :
    DuplicateAnalysis × List StoreQuery :=
  let dup := findDuplicatesTrace store sd
  let suggestions :=
    (dup.1.filter (fun d =>
        decide ((0.8 : ℚ) < calculateNameSimilarity (sd.name.getD []) d.name))).map
      (fun d => (d.name, calculateNameSimilarity (sd.name.getD []) d.name))
  (⟨!dup.1.isEmpty, dup.1, suggestions, validateCountrySpecificFields sd⟩, dup.2)

instance instDecEqExcept {ε α : Type} [DecidableEq ε] [DecidableEq α] :
    DecidableEq (Except ε α) := fun a b =>
  match a, b with
  | Except.error x, Except.error y =>
      if h : x = y then isTrue (by rw [h])
      else isFalse (by intro he; injection he with h2; exact h h2)
  | Except.ok x, Except.ok y =>
      if h : x = y then isTrue (by rw [h])
      else isFalse (by intro he; injection he with h2; exact h h2)
  | Except.error _, Except.ok _ => isFalse (fun he => Except.noConfusion he)
  | Except.ok _, Except.error _ => isFalse (fun he => Except.noConfusion he)

/-- The 400 message of the `POST /api/extract/match` handler. -/
def invalidInputMsg : Str :=
  "At least name or country-specific data is required for matching".toList

/-- The `POST /api/extract/match` handler (extraction.ts lines
116-132): answer the invalid-input error, touching no store, when the
body carries neither a truthy name nor a countryData object; otherwise
delegate to `findMatches`. -/
def matchHandlerTrace (tm : Str → PatientDoc → Bool) (store : List PatientDoc)
    (sd : PartialPatient) : Except Str MatchResult × List StoreQuery :=
  if !truthyS sd.name && !sd.countryData.isSome then
    (Except.error invalidInputMsg, [])
  else
    let r := findMatchesTrace tm store sd
    (Except.ok r.1, r.2)

/-! ### Sorting lemmas -/

theorem mem_orderedInsertDesc (a x : PatientDoc × ℚ) (l : List (PatientDoc × ℚ)) :
    x ∈ orderedInsertDesc a l ↔ x = a ∨ x ∈ l := by
  induction l with
  | nil => simp [orderedInsertDesc]
  | cons b t ih =>
      simp only [orderedInsertDesc]
      split_ifs
      · simp
      · simp only [List.mem_cons, ih]
        tauto

theorem mem_sortByScoreDesc (x : PatientDoc × ℚ) (l : List (PatientDoc × ℚ)) :
    x ∈ sortByScoreDesc l ↔ x ∈ l := by
  induction l with
  | nil => simp [sortByScoreDesc]
  | cons a t ih =>
      simp [sortByScoreDesc, mem_orderedInsertDesc, ih]

theorem pairwise_orderedInsertDesc (a : PatientDoc × ℚ) (l : List (PatientDoc × ℚ))
    (h : l.Pairwise (fun u v => v.2 ≤ u.2)) :
    (orderedInsertDesc a l).Pairwise (fun u v => v.2 ≤ u.2) := by
  induction l with
  | nil => simp [orderedInsertDesc]
  | cons b t ih =>
      obtain ⟨hb, ht⟩ := List.pairwise_cons.mp h
      simp only [orderedInsertDesc]
      split_ifs with hba
      · refine List.Pairwise.cons ?_ h
        intro x hx
        rcases List.mem_cons.mp hx with rfl | hx
        · exact hba
        · exact le_trans (hb x hx) hba
      · refine List.Pairwise.cons ?_ (ih ht)
        intro x hx
        rcases (mem_orderedInsertDesc a x t).mp hx with rfl | hx
        · exact le_of_not_le hba
        · exact hb x hx

theorem pairwise_sortByScoreDesc (l : List (PatientDoc × ℚ)) :
    (sortByScoreDesc l).Pairwise (fun u v => v.2 ≤ u.2) := by
  induction l with
  | nil => simp [sortByScoreDesc]
  | cons a t ih => exact pairwise_orderedInsertDesc a (sortByScoreDesc t) ih

theorem findMatches_partial_eq (tm : Str → PatientDoc → Bool)
    (store : List PatientDoc) (sd : PartialPatient) :
    (findMatches tm store sd).partialMatches
      = sortByScoreDesc (if truthyS sd.name then
          ((store.filter (matchesTextQuery tm
              ⟨sd.name.getD [], sd.country,
                (store.filter (matchesExactQuery (buildExactQuery sd))).map
                  (fun p => p.id)⟩)).map
              (fun p => (p, calculateOverallMatchScore sd p))).filter
            (fun cand => decide ((0.5 : ℚ) < cand.2))
        else []) := rfl

/-! ### Claim theorems for the retriever and the match endpoint -/

/-- C7 (amended): every entry of `partialMatches` records as its score
the `OverallScore` of its candidate and that score strictly exceeds
0.5; the list is sorted in non-increasing — not strictly decreasing —
order of score (equal-scoring candidates may tie). -/
theorem partialMatches_threshold_and_sorted (tm : Str → PatientDoc → Bool)
    (store : List PatientDoc) (sd : PartialPatient) :
    (∀ cand ∈ (findMatches tm store sd).partialMatches,
      (0.5 : ℚ) < cand.2 ∧ cand.2 = calculateOverallMatchScore sd cand.1) ∧
    (findMatches tm store sd).partialMatches.Pairwise (fun u v => v.2 ≤ u.2) := by
  constructor
  · intro cand hc
    rw [findMatches_partial_eq] at hc
    have hmem := (mem_sortByScoreDesc _ _).mp hc
    by_cases hn : truthyS sd.name = true
    · rw [if_pos hn] at hmem
      obtain ⟨hmem2, hgt⟩ := List.mem_filter.mp hmem
      obtain ⟨p0, _, rfl⟩ := List.mem_map.mp hmem2
      exact ⟨of_decide_eq_true hgt, rfl⟩
    · rw [if_neg hn] at hmem
      exact absurd hmem (List.not_mem_nil cand)
  · rw [findMatches_partial_eq]
    exact pairwise_sortByScoreDesc _

/-- The tied query and store used to refute strict descent in C7. -/
def tieQuery : PartialPatient :=
  { name := some ['a','b','c','d'], country := some Country.Japan }

def tieDocA : PatientDoc := ⟨1, ['a','b','c','x'], 3, Country.Japan, {}⟩

def tieDocB : PatientDoc := ⟨2, ['a','b','c','x'], 3, Country.Japan, {}⟩

/-- Counterexample to the strict sortedness in C7: two stored records
with the same name both score 4/5 against the query, so the returned
`partialMatches` carries two equal scores — not a strictly descending
sequence. -/
theorem partialMatches_tie_counterexample :
    ((findMatches (fun _ _ => true) [tieDocA, tieDocB] tieQuery).partialMatches.map
      (fun c => c.2) = [4/5, 4/5]) ∧ ¬((4/5 : ℚ) > 4/5) := by
  constructor
  · with_unfolding_all decide
  · norm_num

/-- Witness for C7: the theorem applied to the tie scenario shows the
recorded score of a concrete partial match exceeds 0.5. -/
theorem partialMatches_threshold_witness :
    (0.5 : ℚ) < calculateOverallMatchScore tieQuery tieDocA :=
  (((partialMatches_threshold_and_sorted (fun _ _ => true) [tieDocA, tieDocB]
      tieQuery).1
    (tieDocA, calculateOverallMatchScore tieQuery tieDocA)
    (by with_unfolding_all decide))).1

/-- C6 (amended): the duplicate lookup of `AnalyzeDuplicates` is
disjunctive — a stored record is returned iff it satisfies at least
one clause of `duplicateQueries` (one clause per carried unique
identifier among nhsNumber, mrn, hospitalUidAadhaar, ssn, plus a
name-age-country clause when all three are truthy) — while the exact
lookup of `FindMatches` is a single conjunctive filter: a stored
record is returned iff it satisfies every constraint included in
`buildExactQuery`. -/
theorem exact_lookup_query_shape (tm : Str → PatientDoc → Bool)
    (store : List PatientDoc) (sd : PartialPatient) (p : PatientDoc) :
    (p ∈ findDuplicates store sd ↔
      p ∈ store ∧ ∃ cl ∈ duplicateQueries sd, satisfiesClause p cl = true) ∧
    (p ∈ (findMatches tm store sd).exactMatches ↔
      p ∈ store ∧ matchesExactQuery (buildExactQuery sd) p = true) := by
  constructor
  · unfold findDuplicates findDuplicatesTrace
    cases hq : (duplicateQueries sd).isEmpty
    · simp only [hq, Bool.false_eq_true, if_false]
      simp [List.mem_filter, List.any_eq_true]
    · have hnil : duplicateQueries sd = [] := List.isEmpty_iff.mp hq
      simp [hq, hnil]
  · show p ∈ (findMatchesTrace tm store sd).1.exactMatches ↔ _
    unfold findMatchesTrace
    simp [List.mem_filter]

/-- The query record and stored record used to refute the claimed
disjunctive exact lookup of `FindMatches`. -/
def sharedIdQuery : PartialPatient :=
  { name := some ['a','b'], countryData := some { nhsNumber := some ['1'] } }

def sharedIdDoc : PatientDoc := ⟨3, ['z','z'], 9, Country.UK, { nhsNumber := some ['1'] }⟩

/-- Counterexample to C6 as stated: a stored record sharing the NHS
number with the query satisfies an identifier clause and is returned
by the duplicate lookup, but the exact lookup of `FindMatches` returns
nothing for the same input (its conjunctive filter also requires the
name to match), so the `FindMatches` exact lookup is not the claimed
disjunction. -/
theorem exact_lookup_query_counterexample :
    findDuplicates [sharedIdDoc] sharedIdQuery = [sharedIdDoc] ∧
    DupClause.nhsNumber ['1'] ∈ duplicateQueries sharedIdQuery ∧
    satisfiesClause sharedIdDoc (DupClause.nhsNumber ['1']) = true ∧
    (findMatches (fun _ _ => false) [sharedIdDoc] sharedIdQuery).exactMatches = [] := by
  refine ⟨?_, ?_, ?_, ?_⟩ <;> with_unfolding_all decide

/-- C5 (amended): `AnalyzeDuplicates` skips retrieval when the record
carries zero qualifying fields — no query is issued and the duplicate
set is empty; `FindMatches` has no such guard: it always issues its
exact query, and when no constraint is included the filter is empty
and every stored record is returned as an exact match. -/
theorem exact_lookup_skip_spec (tm : Str → PatientDoc → Bool)
    (store : List PatientDoc) (sd : PartialPatient) :
    (duplicateQueries sd = [] →
      findDuplicatesTrace store sd = ([], []) ∧
      (analyzeDuplicatesTrace store sd).1.duplicatePatients = [] ∧
      (analyzeDuplicatesTrace store sd).2 = []) ∧
    (StoreQuery.exactFind (buildExactQuery sd) ∈ (findMatchesTrace tm store sd).2) ∧
    (buildExactQuery sd = {} → (findMatches tm store sd).exactMatches = store) := by
  refine ⟨?_, ?_, ?_⟩
  · intro h
    have hd : findDuplicatesTrace store sd = ([], []) := by
      unfold findDuplicatesTrace
      simp [h]
    refine ⟨hd, ?_, ?_⟩ <;> unfold analyzeDuplicatesTrace <;> rw [hd]
  · unfold findMatchesTrace
    exact List.mem_cons_self _ _
  · intro h
    show (findMatchesTrace tm store sd).1.exactMatches = store
    unfold findMatchesTrace
    simp only [h]
    apply List.filter_eq_self.mpr
    intro p _
    rfl

/-- Counterexample to C5 as stated: a record whose countryData object
carries only an address has zero qualifying fields; the duplicate
lookup indeed issues no query and returns nothing, but `FindMatches`
issues the empty-filter exact query and returns the entire store as
exact matches instead of an empty candidate set. -/
theorem exact_lookup_skip_counterexample :
    findDuplicatesTrace [⟨7, ['z'], 40, Country.UK, {}⟩]
        { countryData := some { address := some ['x'] } } = ([], []) ∧
    (findMatchesTrace (fun _ _ => false) [⟨7, ['z'], 40, Country.UK, {}⟩]
        { countryData := some { address := some ['x'] } }).1.exactMatches
      = [⟨7, ['z'], 40, Country.UK, {}⟩] ∧
    (findMatchesTrace (fun _ _ => false) [⟨7, ['z'], 40, Country.UK, {}⟩]
        { countryData := some { address := some ['x'] } }).2
      = [StoreQuery.exactFind {}] := by
  refine ⟨?_, ?_, ?_⟩ <;> with_unfolding_all decide

/-- Witness for C5: a record with an SSN only (an identifier the
`FindMatches` exact filter ignores but the duplicate lookup uses)
still always issues the exact query, and on the empty-queries side a
record with nothing qualifying skips the duplicate lookup. -/
theorem exact_lookup_skip_witness :
    findDuplicatesTrace [⟨7, ['z'], 40, Country.UK, {}⟩]
        { countryData := some { address := some ['x'] } } = ([], []) ∧
    StoreQuery.exactFind (buildExactQuery { name := some ['q'] })
      ∈ (findMatchesTrace (fun _ _ => false) [] { name := some ['q'] }).2 ∧
    (findMatches (fun _ _ => false) [⟨7, ['z'], 40, Country.UK, {}⟩]
        { countryData := some { address := some ['x'] } }).exactMatches
      = [⟨7, ['z'], 40, Country.UK, {}⟩] :=
  ⟨((exact_lookup_skip_spec (fun _ _ => false) [⟨7, ['z'], 40, Country.UK, {}⟩]
      { countryData := some { address := some ['x'] } }).1 (by decide)).1,
   (exact_lookup_skip_spec (fun _ _ => false) [] { name := some ['q'] }).2.1,
   (exact_lookup_skip_spec (fun _ _ => false) [⟨7, ['z'], 40, Country.UK, {}⟩]
      { countryData := some { address := some ['x'] } }).2.2 (by decide)⟩

/-- C1 (amended): the match endpoint rejects with the invalid-input
error, issuing no store query, exactly when the body carries neither a
truthy name nor a countryData object; the mere presence of a
countryData object (even one with no identifier field) lets the
request proceed, and the exact-lookup query is then issued. -/
theorem matchHandler_guard_spec (tm : Str → PatientDoc → Bool)
    (store : List PatientDoc) (sd : PartialPatient) :
    (truthyS sd.name = false → sd.countryData = none →
      matchHandlerTrace tm store sd = (Except.error invalidInputMsg, [])) ∧
    (truthyS sd.name = true ∨ sd.countryData ≠ none →
      (matchHandlerTrace tm store sd).1 = Except.ok (findMatches tm store sd) ∧
      StoreQuery.exactFind (buildExactQuery sd) ∈ (matchHandlerTrace tm store sd).2) := by
  constructor
  · intro h1 h2
    unfold matchHandlerTrace
    rw [h1, h2]
    rfl
  · intro h
    have hcond : (!truthyS sd.name && !sd.countryData.isSome) = false := by
      rcases h with h | h
      · simp [h]
      · simp [Option.isSome_iff_ne_none.mpr h]
    unfold matchHandlerTrace
    rw [hcond]
    simp only [Bool.false_eq_true, if_false]
    exact ⟨rfl, List.mem_cons_self _ _⟩

/-- Counterexample to C1 as stated: a record with a countryData object
carrying no identifier field (only an address) has neither a name nor
any identifier, yet the handler answers `ok` after issuing the
exact-lookup query — and with the empty filter the whole store comes
back as exact matches. -/
theorem matchHandler_guard_counterexample :
    matchHandlerTrace (fun _ _ => false) [⟨7, ['z'], 40, Country.UK, {}⟩]
        { countryData := some { address := some ['x'] } }
      = (Except.ok ⟨[⟨7, ['z'], 40, Country.UK, {}⟩], []⟩,
         [StoreQuery.exactFind {}]) := by
  with_unfolding_all decide

/-- Witness for C1: a record with no name and no countryData object is
rejected with the invalid-input error and an empty query trace, while
a record with an identifier-free countryData object proceeds. -/
theorem matchHandler_guard_witness :
    matchHandlerTrace (fun _ _ => false) [] {}
      = (Except.error invalidInputMsg, []) ∧
    (matchHandlerTrace (fun _ _ => false) []
        { countryData := some {} }).1
      = Except.ok (findMatches (fun _ _ => false) [] { countryData := some {} }) :=
  ⟨(matchHandler_guard_spec (fun _ _ => false) [] {}).1 rfl rfl,
   ((matchHandler_guard_spec (fun _ _ => false) []
      { countryData := some {} }).2 (Or.inr (by simp))).1⟩

end PatientDedup
